import Mathlib

/-!
Verification of the dividend-option pricing core (QuantLib,
`ql/Pricers/dividendoption.cpp`).

The embedding works over `ℚ` (exact rationals standing for the C++ `double`
values; overflow and rounding are not at issue in any claim below).  Two
collaborators of the translated code are not part of the source tree:

* the cubic-spline interpolator (`ql/Math/cubicspline.hpp`) — modelled from
  the spec as an abstract evaluator `ev : List ℚ → List ℚ → ℚ → ℚ` taking the
  knot abscissas, the knot ordinates and the evaluation point, together with
  the interpolation property (`Interpolates`) the spec ascribes to it;
* the logarithm `QL_LOG` — kept as an abstract parameter `log : ℚ → ℚ`,
  with monotonicity/injectivity assumed where a claim needs it.

All structural facts (which index is read, which value is assigned where,
lengths, error conditions, frame effects) are independent of the concrete
spline and logarithm, so the theorems quantify over them.
-/

namespace QLDiv

/-- Errors of the transfer step.  `degenerateGrid` is the `DegenerateGridError` of the spec (modelled from the spec: the check lives in the
`CubicSpline` constructor, whose source is not in the tree).
`indexOutOfBounds` models the C++ precondition that every `Array` access in
the body stays in range (`Array::operator[]` is unchecked). -/
inductive TransferError where
  | degenerateGrid
  | indexOutOfBounds
deriving DecidableEq

/-- The pairwise filter of `DividendOption::movePricesBeforeExDiv`
(lines 160–167): walk `j = 0 .. oldGrid.size()-1`, read `p = prices[j]`,
`g = oldGrid[j]`, and keep the pair when `g > 0`. -/
def survivors (prices oldGrid : List ℚ) : List (ℚ × ℚ) :=
  (oldGrid.zip prices).filter (fun gp => decide (0 < gp.1))

/-- The knot abscissas handed to the spline: `QL_LOG(g)` of each surviving
grid point (`logOldGrid` in the source). -/
def knotXs (log : ℚ → ℚ) (prices oldGrid : List ℚ) : List ℚ :=
  (survivors prices oldGrid).map (fun gp => log gp.1)

/-- The knot ordinates handed to the spline: the price paired with each
surviving grid point (`tmpPrices` in the source). -/
def knotYs (prices oldGrid : List ℚ) : List ℚ :=
  (survivors prices oldGrid).map (fun gp => gp.2)

/-- The clamped index of the evaluation loop (lines 173–177):
`jGrid = gridSize-2` when `newGrid[j] >= oldGrid[gridSize-2]`, else
`jGrid = j`; `gridSize` is `oldGrid.size()`. -/
def jGridIndex (oldGrid newGrid : List ℚ) (j : ℕ) : ℕ :=
  if oldGrid.getD (oldGrid.length - 2) 0 ≤ newGrid.getD j 0 then
    oldGrid.length - 2
  else j

/-- The array produced by the evaluation loop (lines 172–180): for
`j = 0 .. oldGrid.size()-1` the entry becomes the spline evaluated at
`QL_LOG(newGrid[jGrid])`; entries of `prices` beyond that range are never
written (the mutation is in place). -/
def transferredPrices (log : ℚ → ℚ) (ev : List ℚ → List ℚ → ℚ → ℚ)
    (prices newGrid oldGrid : List ℚ) : List ℚ :=
  ((List.range oldGrid.length).map (fun j =>
    ev (knotXs log prices oldGrid) (knotYs prices oldGrid)
      (log (newGrid.getD (jGridIndex oldGrid newGrid j) 0))))
  ++ prices.drop oldGrid.length

/-- Translation of `DividendOption::movePricesBeforeExDiv` (lines 151–182).
Parameter order follows the C++ signature: the mutated price array, the new
grid, the old grid.  The in-range guards model the unchecked C++ indexing
(the filter loop reads `prices[j]` for every `j < oldGrid.size()`, the
evaluation loop reads `newGrid[j]` likewise); the degenerate-grid failure is
modelled from the spec (`DegenerateGridError` when fewer than 2 points
survive), since the spline constructor performing it is not in the tree. -/
def movePricesBeforeExDiv (log : ℚ → ℚ) (ev : List ℚ → List ℚ → ℚ → ℚ)
    (prices newGrid oldGrid : List ℚ) : Except TransferError (List ℚ) :=
  if oldGrid.length ≤ prices.length then
    if 2 ≤ (survivors prices oldGrid).length then
      if oldGrid.length ≤ newGrid.length then
        .ok (transferredPrices log ev prices newGrid oldGrid)
      else .error .indexOutOfBounds
    else .error .degenerateGrid
  else .error .indexOutOfBounds

/-- Modelled from the spec: the interpolation property of the cubic spline
(`passes exactly through filtered points`).  An evaluator interpolates when
evaluating at the `i`-th knot abscissa returns the `i`-th ordinate, provided
the abscissas are pairwise distinct. -/
def Interpolates (ev : List ℚ → List ℚ → ℚ → ℚ) : Prop :=
  ∀ xs ys : List ℚ, xs.Nodup → ∀ i : ℕ, i < xs.length → i < ys.length →
    ev xs ys (xs.getD i 0) = ys.getD i 0

/-- A concrete interpolating evaluator, used to instantiate witnesses and
counterexamples: return the ordinate paired with the first knot equal to the
evaluation point, `0` off the knots. -/
def tableLookup (xs ys : List ℚ) (x : ℚ) : ℚ :=
  match xs, ys with
  | a :: xs1, b :: ys1 => if x = a then b else tableLookup xs1 ys1 x
  | _, _ => 0

/-- The grid-support state of the pricer: `center_`, `sMin_`, `sMax_`. -/
structure GridState where
  center : ℚ
  sMin : ℚ
  sMax : ℚ
deriving DecidableEq

/-- Modelled from the spec: `setGridLimits` is defined in a base class that is
not in the tree.  Per the spec the call records the new center for the coming
rebuild, and at a dividend event the bounds change only through the widening
rule of `executeIntermediateStep` below. -/
def setGridLimits (s : GridState) (c : ℚ) : GridState :=
  ⟨c, s.sMin, s.sMax⟩

/-- The bounds update of `DividendOption::executeIntermediateStep`
(lines 130–135): `newSMin = sMin_ + dividend`; `setGridLimits` with the
shifted center; then, if `newSMin > sMin_`, assign `sMin_ = newSMin` and
`sMax_ = center_/(sMin_/center_)` (with `sMin_` already updated). -/
def executeIntermediateStepBounds (s : GridState) (dividend : ℚ) : GridState :=
  let newSMin := s.sMin + dividend
  let s1 := setGridLimits s (s.center + dividend)
  if newSMin > s1.sMin then
    ⟨s1.center, newSMin, s1.center / (newSMin / s1.center)⟩
  else s1

/-- `addElements` of the utilities (not in the tree): the cumulative dividend
sum of the spec. -/
def addElements (xs : List ℚ) : ℚ := xs.sum

/-- The `ConfigurationError` of the spec, carrying the offending counts or sums as
the two `QL_REQUIRE` messages of the constructor do. -/
inductive ConfigurationError where
  | dateCountMismatch (nDividends nDates : ℕ)
  | dividendsExceedUnderlying (dividendSum underlying : ℚ)
deriving DecidableEq

/-- Translation of the `DividendOption` constructor checks (lines 90–113):
require the number of dividends to equal the number of dates, and the
underlying to strictly exceed the dividend sum; on success the base class
receives the net spot `underlying - addElements(dividends)`.  `dateNumber_`
is set by the `MultiPeriodOption` base, which is not in the tree; modelled
from the spec as the number of step dates, i.e. `exdivdates.length`. -/
def dividendOptionConstruct (underlying : ℚ) (dividends : List ℚ)
    (exdivdates : List ℚ) : Except ConfigurationError ℚ :=
  let dateNumber := exdivdates.length
  if dateNumber = dividends.length then
    if underlying > addElements dividends then
      .ok (underlying - addElements dividends)
    else .error (.dividendsExceedUnderlying (addElements dividends) underlying)
  else .error (.dateCountMismatch dividends.length dateNumber)

/-- The mutable state visible to `executeIntermediateStep`: grid support,
current grid values, and the two price arrays (`prices_`, the primary, and
`controlPrices_`, the control-variate array). -/
structure PricingState where
  gridState : GridState
  grid : List ℚ
  prices : List ℚ
  controlPrices : List ℚ
deriving DecidableEq

/-- Translation of `DividendOption::executeIntermediateStep` (lines 128–149).
External collaborators not in the tree are modelled from the spec as
parameters: `rebuildGrid` stands for `initializeGrid` (rebuild from the
declarative `(center, bounds, date)` state), and `applyStepCondition` for
`initializeStepCondition` + `stepCondition_->applyTo(prices_, dates_[step])`.
`initializeInitialCondition`, `initializeOperator` and `initializeModel`
touch only state (initial prices, operator, model) that no claim reads, and
are omitted.  Order follows the source: bounds update, snapshot
`oldGrid = grid_ + dividend`, grid rebuild, transfer of the primary array,
transfer of the control array, step condition applied to the primary
array only. -/
def executeIntermediateStep (log : ℚ → ℚ) (ev : List ℚ → List ℚ → ℚ → ℚ)
    (rebuildGrid : GridState → ℚ → List ℚ)
    (applyStepCondition : List ℚ → ℚ → List ℚ)
    (dividend date : ℚ) (s : PricingState) :
    Except TransferError PricingState :=
  let gs1 := executeIntermediateStepBounds s.gridState dividend
  let oldGrid := s.grid.map (fun g => g + dividend)
  let newGrid := rebuildGrid gs1 date
  match movePricesBeforeExDiv log ev s.prices newGrid oldGrid with
  | .error e => .error e
  | .ok p =>
    match movePricesBeforeExDiv log ev s.controlPrices newGrid oldGrid with
    | .error e => .error e
    | .ok c =>
      .ok ⟨gs1, newGrid, applyStepCondition p date, c⟩

/-- The transfer seen with the C++ reference signature: the price array is
passed by mutable reference, the two grids by `const` reference.  The body of
`movePricesBeforeExDiv` contains no write to either grid, so the translation
returns them as received. -/
structure TransferState where
  prices : List ℚ
  newGrid : List ℚ
  oldGrid : List ℚ
deriving DecidableEq

/-- `movePricesBeforeExDiv` acting on the full reference state. -/
def movePricesInState (log : ℚ → ℚ) (ev : List ℚ → List ℚ → ℚ → ℚ)
    (st : TransferState) : Except TransferError TransferState :=
  match movePricesBeforeExDiv log ev st.prices st.newGrid st.oldGrid with
  | .error e => .error e
  | .ok p => .ok ⟨p, st.newGrid, st.oldGrid⟩

/-! ## Helper lemmas -/

/-- The assignment `sMax_ = center_/(sMin_/center_)` equals `center²/sMin`
(unconditionally over `ℚ`, where division by zero yields zero on both
sides). -/
lemma div_div_self_eq_sq_div (c n : ℚ) : c / (n / c) = c ^ 2 / n := by
  rcases eq_or_ne c 0 with hc | hc
  · simp [hc]
  · rcases eq_or_ne n 0 with hn | hn
    · simp [hn]
    · field_simp
      ring

/-- `tableLookup` has the interpolation property. -/
lemma interpolates_tableLookup : Interpolates tableLookup := by
  intro xs ys hnodup i hi hiy
  induction xs generalizing ys i with
  | nil => simp at hi
  | cons a xs1 ih =>
    cases ys with
    | nil => simp at hiy
    | cons b ys1 =>
      cases i with
      | zero => simp [tableLookup]
      | succ n =>
        have hn : n < xs1.length := by simpa using hi
        have hne : xs1.getD n 0 ≠ a := by
          intro hEq
          have hmem : xs1.getD n 0 ∈ xs1 := by
            rw [List.getD_eq_getElem _ _ hn]
            exact List.getElem_mem hn
          rw [hEq] at hmem
          exact (List.nodup_cons.mp hnodup).1 hmem
        rw [List.getD_cons_succ, List.getD_cons_succ, tableLookup,
          if_neg hne]
        exact ih ys1 (List.nodup_cons.mp hnodup).2 n hn (by simpa using hiy)

/-- Inversion of a successful transfer: all bounds guards passed, at least
two points survived, and the output is `transferredPrices`. -/
lemma movePrices_ok_inv {log : ℚ → ℚ} {ev : List ℚ → List ℚ → ℚ → ℚ}
    {prices newGrid oldGrid result : List ℚ}
    (h : movePricesBeforeExDiv log ev prices newGrid oldGrid = .ok result) :
    oldGrid.length ≤ prices.length ∧
    2 ≤ (survivors prices oldGrid).length ∧
    oldGrid.length ≤ newGrid.length ∧
    result = transferredPrices log ev prices newGrid oldGrid := by
  unfold movePricesBeforeExDiv at h
  split_ifs at h with h1 h2 h3
  refine ⟨h1, h2, h3, ?_⟩
  injection h with h
  exact h.symm

/-- Entry `j < oldGrid.length` of the output of the evaluation loop. -/
lemma transferredPrices_getD (log : ℚ → ℚ) (ev : List ℚ → List ℚ → ℚ → ℚ)
    (prices newGrid oldGrid : List ℚ) {j : ℕ} (hj : j < oldGrid.length) :
    (transferredPrices log ev prices newGrid oldGrid).getD j 0 =
      ev (knotXs log prices oldGrid) (knotYs prices oldGrid)
        (log (newGrid.getD (jGridIndex oldGrid newGrid j) 0)) := by
  unfold transferredPrices
  rw [List.getD_eq_getElem?_getD, List.getElem?_append_left (by simpa using hj),
    List.getElem?_map, List.getElem?_range hj]
  rfl

/-- The clamp test of the source (`newGrid[j] >= oldGrid[gridSize-2]`) phrased as
the spec states it (`jGrid = j` when `newGrid[j] < oldGrid[len-2]`). -/
lemma jGridIndex_eq_claim (oldGrid newGrid : List ℚ) (j : ℕ) :
    jGridIndex oldGrid newGrid j =
      if newGrid.getD j 0 < oldGrid.getD (oldGrid.length - 2) 0 then j
      else oldGrid.length - 2 := by
  unfold jGridIndex
  rcases le_or_lt (oldGrid.getD (oldGrid.length - 2) 0) (newGrid.getD j 0)
    with hc | hc
  · rw [if_pos hc, if_neg (not_lt.mpr hc)]
  · rw [if_neg (not_le.mpr hc), if_pos hc]

/-! ## Claims -/

/-- C1: for every index of the evaluation loop the spline built from the
filtered points is evaluated at `ln(newGrid[jGrid])` where `jGrid = j` when
`newGrid[j] < oldGrid[len(oldGrid)-2]` and `jGrid = len(oldGrid)-2`
otherwise — the cap computed from the length of the old grid while indexing
the values of the new grid — and the result is assigned to the output at index `j`. -/
theorem transfer_eval_point_and_assignment (log : ℚ → ℚ)
    (ev : List ℚ → List ℚ → ℚ → ℚ) (prices newGrid oldGrid result : List ℚ)
    (j : ℕ)
    (h : movePricesBeforeExDiv log ev prices newGrid oldGrid = .ok result)
    (hj : j < oldGrid.length) :
    result.getD j 0 =
      ev (knotXs log prices oldGrid) (knotYs prices oldGrid)
        (log (newGrid.getD
          (if newGrid.getD j 0 < oldGrid.getD (oldGrid.length - 2) 0 then j
            else oldGrid.length - 2) 0)) := by
  obtain ⟨-, -, -, rfl⟩ := movePrices_ok_inv h
  rw [transferredPrices_getD log ev prices newGrid oldGrid hj,
    jGridIndex_eq_claim]

/-- C1 witness: on the transfer of `[10,20,30]` from old grid `[1,2,4]` to
new grid `[1,2,4,8]`, output index `2` holds the spline value at
`ln(newGrid[1])` (the clamp fires since `4 ≥ oldGrid[1] = 2`). -/
theorem transfer_eval_point_and_assignment_witness :
    ([10, 20, 20] : List ℚ).getD 2 0 =
      tableLookup (knotXs id [10, 20, 30] [1, 2, 4])
        (knotYs [10, 20, 30] [1, 2, 4])
        (id (([1, 2, 4, 8] : List ℚ).getD
          (if ([1, 2, 4, 8] : List ℚ).getD 2 0 <
              ([1, 2, 4] : List ℚ).getD (([1, 2, 4] : List ℚ).length - 2) 0
            then 2 else ([1, 2, 4] : List ℚ).length - 2) 0)) :=
  transfer_eval_point_and_assignment id tableLookup [10, 20, 30]
    [1, 2, 4, 8] [1, 2, 4] [10, 20, 20] 2 (by rfl) (by decide)

/-- C2: with the arrays long enough for the loops (the data-model invariant
`len(PriceArray) = len(Grid)`), the transfer fails with
`DegenerateGridError` exactly when fewer than 2 points of the old grid
survive the strict-positivity filter, and succeeds (builds the spline and
produces output prices) exactly when at least 2 points survive. -/
theorem transfer_degenerate_iff (log : ℚ → ℚ) (ev : List ℚ → List ℚ → ℚ → ℚ)
    (prices newGrid oldGrid : List ℚ)
    (hp : oldGrid.length ≤ prices.length)
    (hn : oldGrid.length ≤ newGrid.length) :
    (movePricesBeforeExDiv log ev prices newGrid oldGrid =
        .error .degenerateGrid ↔ (survivors prices oldGrid).length < 2) ∧
    ((∃ r, movePricesBeforeExDiv log ev prices newGrid oldGrid = .ok r) ↔
      2 ≤ (survivors prices oldGrid).length) := by
  unfold movePricesBeforeExDiv
  rw [if_pos hp]
  by_cases hs : 2 ≤ (survivors prices oldGrid).length
  · rw [if_pos hs, if_pos hn]
    exact ⟨iff_of_false (fun hc => Except.noConfusion hc) (by omega),
      iff_of_true ⟨_, rfl⟩ hs⟩
  · rw [if_neg hs]
    refine ⟨iff_of_true rfl (by omega), iff_of_false (fun hc => ?_) hs⟩
    rcases hc with ⟨r, hr⟩
    exact Except.noConfusion hr

/-- C2 witness: old grid `[1,-1]` keeps only the point `1` under the
strict-positivity filter, so the transfer reports the degenerate grid. -/
theorem transfer_degenerate_iff_witness :
    movePricesBeforeExDiv id tableLookup [5, 6] [1, 2] [1, -1] =
      .error .degenerateGrid :=
  (transfer_degenerate_iff id tableLookup [5, 6] [1, 2] [1, -1]
    (by decide) (by decide)).1.mpr (by decide)

/-- C4 counterexample: with old grid `[1,2,4]` and new grid `[1,2,4,8]` the
transfer succeeds but its output has length `3`, not `len(newGrid) = 4`:
the evaluation loop is bounded by the length of the old grid, not of the
new grid. -/
theorem transfer_length_counterexample :
    movePricesBeforeExDiv id tableLookup [10, 20, 30] [1, 2, 4, 8]
        [1, 2, 4] = .ok [10, 20, 20] ∧
    ¬ ([10, 20, 20] : List ℚ).length = ([1, 2, 4, 8] : List ℚ).length :=
  ⟨by rfl, by decide⟩

/-- C4 amended: the transfer mutates the price array in place, so the output
has length `len(prices)`; the evaluation loop covers exactly the indices
`0..len(oldGrid)-1`, and entries at indices `≥ len(oldGrid)` keep their
previous values. -/
theorem transfer_length_amended (log : ℚ → ℚ)
    (ev : List ℚ → List ℚ → ℚ → ℚ)
    (prices newGrid oldGrid result : List ℚ)
    (h : movePricesBeforeExDiv log ev prices newGrid oldGrid = .ok result) :
    result.length = prices.length ∧
    ∀ j, oldGrid.length ≤ j → result.getD j 0 = prices.getD j 0 := by
  obtain ⟨hp, -, -, rfl⟩ := movePrices_ok_inv h
  constructor
  · unfold transferredPrices
    rw [List.length_append, List.length_map, List.length_range,
      List.length_drop]
    omega
  · intro j hj
    unfold transferredPrices
    have hlen : ((List.range oldGrid.length).map (fun i =>
        ev (knotXs log prices oldGrid) (knotYs prices oldGrid)
          (log (newGrid.getD (jGridIndex oldGrid newGrid i) 0)))).length =
        oldGrid.length := by simp
    rw [List.getD_eq_getElem?_getD, List.getD_eq_getElem?_getD,
      List.getElem?_append_right (by rw [hlen]; exact hj), hlen,
      List.getElem?_drop,
      show oldGrid.length + (j - oldGrid.length) = j from by omega]

/-- C4 witness: a price array one entry longer than the old grid: the output
keeps the length `4` of the price array, and the entry at index `3`
(beyond the loop) is untouched. -/
theorem transfer_length_amended_witness :
    ([10, 20, 20, 40] : List ℚ).length =
      ([10, 20, 30, 40] : List ℚ).length ∧
    ([10, 20, 20, 40] : List ℚ).getD 3 0 =
      ([10, 20, 30, 40] : List ℚ).getD 3 0 :=
  ⟨(transfer_length_amended id tableLookup [10, 20, 30, 40] [1, 2, 4]
      [1, 2, 4] [10, 20, 20, 40] (by rfl)).1,
    (transfer_length_amended id tableLookup [10, 20, 30, 40] [1, 2, 4]
      [1, 2, 4] [10, 20, 20, 40] (by rfl)).2 3 (by decide)⟩

/-- C3 counterexample: transferring `[10,20,30]` from the strictly
increasing, strictly positive grid `[1,2,4]` onto the identical grid (with
the interpolating evaluator `tableLookup` and a monotone injective log)
yields `[10,20,20]`: the tail clamp sends the last index to the knot at
`oldGrid[1]`, so the last entry becomes `prices[1] = 20 ≠ 30`, a finite
discrepancy no floating tolerance absorbs. -/
theorem transfer_roundtrip_counterexample :
    movePricesBeforeExDiv id tableLookup [10, 20, 30] [1, 2, 4] [1, 2, 4] =
      .ok [10, 20, 20] ∧
    ¬ ([10, 20, 20] : List ℚ).getD 2 0 =
      ([10, 20, 30] : List ℚ).getD 2 0 :=
  ⟨by rfl, by decide⟩

/-- C3 amended: transferring prices from a strictly increasing, strictly
positive grid onto the identical grid returns the prices unchanged at every
index except the last; the last output entry receives the value interpolated
at `ln(grid[len-2])`, i.e. the price at index `len-2`. -/
theorem transfer_roundtrip_amended (log : ℚ → ℚ)
    (ev : List ℚ → List ℚ → ℚ → ℚ) (prices grid result : List ℚ)
    (hev : Interpolates ev) (hlog : Function.Injective log)
    (hsorted : grid.Pairwise (· < ·)) (hpos : ∀ g ∈ grid, 0 < g)
    (hlen : prices.length = grid.length)
    (h : movePricesBeforeExDiv log ev prices grid grid = .ok result) :
    (∀ j, j + 1 < grid.length → result.getD j 0 = prices.getD j 0) ∧
    result.getD (grid.length - 1) 0 = prices.getD (grid.length - 2) 0 := by
  obtain ⟨hp, hs, -, rfl⟩ := movePrices_ok_inv h
  have hzip_len : (grid.zip prices).length = grid.length := by
    rw [List.length_zip, hlen, min_self]
  have hsurv : survivors prices grid = grid.zip prices := by
    unfold survivors
    refine List.filter_eq_self.mpr (fun gp hgp => ?_)
    rcases List.of_mem_zip hgp with ⟨hg, -⟩
    exact decide_eq_true (hpos gp.1 hg)
  have h2 : 2 ≤ grid.length := by
    rw [hsurv, hzip_len] at hs
    exact hs
  have hxs : knotXs log prices grid = grid.map log := by
    unfold knotXs
    rw [hsurv, show (fun gp : ℚ × ℚ => log gp.1) = log ∘ Prod.fst from rfl,
      ← List.map_map, List.map_fst_zip grid prices (le_of_eq hlen.symm)]
  have hys : knotYs prices grid = prices := by
    unfold knotYs
    rw [hsurv, show (fun gp : ℚ × ℚ => gp.2) = (Prod.snd : ℚ × ℚ → ℚ)
        from rfl,
      List.map_snd_zip grid prices (le_of_eq hlen)]
  have hnodup : (grid.map log).Nodup :=
    List.Nodup.map hlog (hsorted.imp ne_of_lt)
  have hgetlt : ∀ a b : ℕ, a < b → b < grid.length →
      grid.getD a 0 < grid.getD b 0 := by
    intro a b hab hb
    rw [List.getD_eq_getElem _ _ (by omega), List.getD_eq_getElem _ _ hb]
    exact List.pairwise_iff_getElem.mp hsorted a b (by omega) hb hab
  have hmapget : ∀ k, k < grid.length →
      (grid.map log).getD k 0 = log (grid.getD k 0) := by
    intro k hk
    rw [List.getD_eq_getElem _ _ (by simpa using hk),
      List.getD_eq_getElem _ _ hk, List.getElem_map]
  have heval : ∀ k, k < grid.length →
      ev (grid.map log) prices (log (grid.getD k 0)) = prices.getD k 0 := by
    intro k hk
    rw [← hmapget k hk]
    exact hev (grid.map log) prices hnodup k (by simpa using hk) (by omega)
  have hentry : ∀ j, j < grid.length →
      (transferredPrices log ev prices grid grid).getD j 0 =
        prices.getD (jGridIndex grid grid j) 0 := by
    intro j hj
    rw [transferredPrices_getD log ev prices grid grid hj, hxs, hys]
    have hjg : jGridIndex grid grid j < grid.length := by
      unfold jGridIndex
      split
      · omega
      · exact hj
    exact heval _ hjg
  have hclamp1 : ∀ j, j + 1 < grid.length → jGridIndex grid grid j = j := by
    intro j hj1
    unfold jGridIndex
    by_cases hc : grid.getD (grid.length - 2) 0 ≤ grid.getD j 0
    · rw [if_pos hc]
      rcases Nat.lt_or_ge j (grid.length - 2) with hlt | hge
      · exact absurd hc
          (not_le.mpr (hgetlt j (grid.length - 2) hlt (by omega)))
      · omega
    · rw [if_neg hc]
  have hclamp2 : jGridIndex grid grid (grid.length - 1) =
      grid.length - 2 := by
    unfold jGridIndex
    rw [if_pos (le_of_lt
      (hgetlt (grid.length - 2) (grid.length - 1) (by omega) (by omega)))]
  refine ⟨fun j hj1 => ?_, ?_⟩
  · rw [hentry j (by omega), hclamp1 j hj1]
  · rw [hentry (grid.length - 1) (by omega), hclamp2]

/-- C3 amended witness: for grid `[1,2,4]` and prices `[10,20,30]` the
last output entry equals the price at index `len-2`. -/
theorem transfer_roundtrip_amended_witness :
    ([10, 20, 20] : List ℚ).getD 2 0 = ([10, 20, 30] : List ℚ).getD 1 0 :=
  (transfer_roundtrip_amended id tableLookup [10, 20, 30] [1, 2, 4]
    [10, 20, 20] interpolates_tableLookup Function.injective_id
    (by decide) (by decide) (by decide) (by rfl)).2

/-- C9 counterexample: for old grid `[2,3,6]` and new grid `[1,8,16]` the
transfer succeeds, yet the evaluation point for output index `0` (namely
`ln 1`, as the clamp does not fire) lies strictly below the log of the first
surviving old-grid point (`ln 2`), and the evaluation point for output index
`1` (namely `ln(newGrid[1]) = ln 8`, the clamp indexing the new grid) lies
strictly above the log of the second-to-last old-grid point (`ln 3`). -/
theorem spline_domain_counterexample :
    movePricesBeforeExDiv id tableLookup [0, 0, 0] [1, 8, 16] [2, 3, 6] =
      .ok [0, 0, 0] ∧
    id (([1, 8, 16] : List ℚ).getD (jGridIndex [2, 3, 6] [1, 8, 16] 0) 0) <
      (knotXs id [0, 0, 0] [2, 3, 6]).getD 0 0 ∧
    id (([2, 3, 6] : List ℚ).getD (([2, 3, 6] : List ℚ).length - 2) 0) <
      id (([1, 8, 16] : List ℚ).getD
        (jGridIndex [2, 3, 6] [1, 8, 16] 1) 0) :=
  ⟨by rfl, by decide, by decide⟩

/-- C9 amended: for a monotone logarithm, every spline evaluation point
`ln(newGrid[jGrid])` of the transfer is bounded above by the larger of
`ln(oldGrid[len(oldGrid)-2])` and `ln(newGrid[len(oldGrid)-2])`; neither the
claimed lower bound nor the upper bound phrased on the old grid alone
holds. -/
theorem spline_domain_amended (log : ℚ → ℚ)
    (ev : List ℚ → List ℚ → ℚ → ℚ) (prices newGrid oldGrid result : List ℚ)
    (j : ℕ) (hlog : Monotone log)
    (h : movePricesBeforeExDiv log ev prices newGrid oldGrid = .ok result)
    (hj : j < oldGrid.length) :
    log (newGrid.getD (jGridIndex oldGrid newGrid j) 0) ≤
      max (log (oldGrid.getD (oldGrid.length - 2) 0))
        (log (newGrid.getD (oldGrid.length - 2) 0)) := by
  unfold jGridIndex
  by_cases hc : oldGrid.getD (oldGrid.length - 2) 0 ≤ newGrid.getD j 0
  · rw [if_pos hc]
    exact le_max_right _ _
  · rw [if_neg hc]
    exact le_trans (hlog (le_of_lt (not_le.mp hc))) (le_max_left _ _)

/-- C9 amended witness: the `j = 0` evaluation point of the concrete
transfer above respects the two-sided maximum bound. -/
theorem spline_domain_amended_witness :
    id (([1, 8, 16] : List ℚ).getD (jGridIndex [2, 3, 6] [1, 8, 16] 0) 0) ≤
      max (id (([2, 3, 6] : List ℚ).getD
          (([2, 3, 6] : List ℚ).length - 2) 0))
        (id (([1, 8, 16] : List ℚ).getD
          (([2, 3, 6] : List ℚ).length - 2) 0)) :=
  spline_domain_amended id tableLookup [0, 0, 0] [1, 8, 16] [2, 3, 6]
    [0, 0, 0] 0 monotone_id (by rfl) (by decide)

/-- C5: at a dividend event, if the candidate lower bound
(old `sMin` + dividend) exceeds the current `sMin`, then `sMin` becomes the
candidate and `sMax` becomes `center²/sMin` for the updated center; otherwise
both bounds are left unchanged by the event. -/
theorem dividend_event_bounds_update (s : GridState) (dividend : ℚ) :
    (s.sMin + dividend > s.sMin →
      (executeIntermediateStepBounds s dividend).sMin = s.sMin + dividend ∧
      (executeIntermediateStepBounds s dividend).sMax =
        (executeIntermediateStepBounds s dividend).center ^ 2 /
          (executeIntermediateStepBounds s dividend).sMin) ∧
    (¬ s.sMin + dividend > s.sMin →
      (executeIntermediateStepBounds s dividend).sMin = s.sMin ∧
      (executeIntermediateStepBounds s dividend).sMax = s.sMax) := by
  unfold executeIntermediateStepBounds setGridLimits
  constructor
  · intro h
    rw [if_pos h]
    exact ⟨rfl, div_div_self_eq_sq_div _ _⟩
  · intro h
    rw [if_neg h]
    exact ⟨rfl, rfl⟩

/-- C5 witness: a concrete widening event (`sMin = 2`, dividend `2`,
center `6`): the candidate `4` exceeds `2`, so `sMin` becomes `4` and `sMax`
becomes `8²/4 = 16`. -/
theorem dividend_event_bounds_update_witness :
    (executeIntermediateStepBounds ⟨6, 2, 50⟩ 2).sMin = (2 : ℚ) + 2 ∧
    (executeIntermediateStepBounds ⟨6, 2, 50⟩ 2).sMax =
      (executeIntermediateStepBounds ⟨6, 2, 50⟩ 2).center ^ 2 /
        (executeIntermediateStepBounds ⟨6, 2, 50⟩ 2).sMin :=
  (dividend_event_bounds_update ⟨6, 2, 50⟩ 2).1 (by norm_num)

/-- C6: at every dividend event the grid center after the event equals the
center before the event plus the dividend; in particular, for a dividend of
`5` the new center is the old center plus `5`. -/
theorem dividend_event_center_shift :
    (∀ (s : GridState) (dividend : ℚ),
      (executeIntermediateStepBounds s dividend).center =
        s.center + dividend) ∧
    ∀ s : GridState,
      (executeIntermediateStepBounds s 5).center = s.center + 5 := by
  have hgen : ∀ (s : GridState) (dividend : ℚ),
      (executeIntermediateStepBounds s dividend).center =
        s.center + dividend := by
    intro s dividend
    simp only [executeIntermediateStepBounds, setGridLimits]
    split
    · rfl
    · rfl
  exact ⟨hgen, fun s => hgen s 5⟩

/-- C8: at a dividend event the step condition is applied to the primary
price array only: the control-array result is exactly the raw transfer
output, and replacing the step-condition function by any other leaves the
control-array result unchanged. -/
theorem step_condition_primary_only (log : ℚ → ℚ)
    (ev : List ℚ → List ℚ → ℚ → ℚ) (rebuildGrid : GridState → ℚ → List ℚ)
    (applyStepCondition : List ℚ → ℚ → List ℚ) (dividend date : ℚ)
    (s t : PricingState)
    (h : executeIntermediateStep log ev rebuildGrid applyStepCondition
      dividend date s = .ok t) :
    movePricesBeforeExDiv log ev s.controlPrices
        (rebuildGrid (executeIntermediateStepBounds s.gridState dividend)
          date)
        (s.grid.map (fun g => g + dividend)) = .ok t.controlPrices ∧
    ∀ g : List ℚ → ℚ → List ℚ, ∃ t2,
      executeIntermediateStep log ev rebuildGrid g dividend date s =
        .ok t2 ∧ t2.controlPrices = t.controlPrices := by
  simp only [executeIntermediateStep] at h
  cases hmp : movePricesBeforeExDiv log ev s.prices
      (rebuildGrid (executeIntermediateStepBounds s.gridState dividend) date)
      (s.grid.map (fun g => g + dividend)) with
  | error e =>
    rw [hmp] at h
    exact Except.noConfusion h
  | ok p =>
    rw [hmp] at h
    cases hmc : movePricesBeforeExDiv log ev s.controlPrices
        (rebuildGrid (executeIntermediateStepBounds s.gridState dividend)
          date)
        (s.grid.map (fun g => g + dividend)) with
    | error e =>
      rw [hmc] at h
      exact Except.noConfusion h
    | ok c =>
      rw [hmc] at h
      injection h with h
      subst h
      refine ⟨?_, fun g =>
        ⟨⟨executeIntermediateStepBounds s.gridState dividend,
          rebuildGrid (executeIntermediateStepBounds s.gridState dividend)
            date, g p date, c⟩, ?_, ?_⟩⟩
      · rfl
      · simp only [executeIntermediateStep]
        rw [hmp, hmc]
      · rfl

/-- C8 witness: a concrete event (dividend `2`, grid `[1,2,4]`, primary
prices `[10,20,30]`, control prices `[1,2,3]`, step condition reversing the
primary array): the control output `[1,2,2]` is the raw transfer output and
does not depend on the step-condition function. -/
theorem step_condition_primary_only_witness :
    movePricesBeforeExDiv id tableLookup [1, 2, 3] [3, 4, 6] [3, 4, 6] =
      .ok [1, 2, 2] ∧
    ∃ t2, executeIntermediateStep id tableLookup (fun _ _ => [3, 4, 6])
        (fun p _ => p) 2 0
        ⟨⟨6, 2, 50⟩, [1, 2, 4], [10, 20, 30], [1, 2, 3]⟩ =
        .ok t2 ∧ t2.controlPrices = [1, 2, 2] := by
  have h1 : executeIntermediateStepBounds ⟨6, 2, 50⟩ 2 = ⟨8, 4, 16⟩ := by
    norm_num [executeIntermediateStepBounds, setGridLimits]
  have h2 : List.map (fun g => g + (2 : ℚ)) [1, 2, 4] = [3, 4, 6] := by
    norm_num
  have h : executeIntermediateStep id tableLookup (fun _ _ => [3, 4, 6])
      (fun p _ => p.reverse) 2 0
      ⟨⟨6, 2, 50⟩, [1, 2, 4], [10, 20, 30], [1, 2, 3]⟩ =
      .ok ⟨⟨8, 4, 16⟩, [3, 4, 6], [20, 20, 10], [1, 2, 2]⟩ := by
    simp only [executeIntermediateStep]
    rw [h1, h2]
    rfl
  have H := step_condition_primary_only id tableLookup
    (fun _ _ => [3, 4, 6]) (fun p _ => p.reverse) 2 0
    ⟨⟨6, 2, 50⟩, [1, 2, 4], [10, 20, 30], [1, 2, 3]⟩
    ⟨⟨8, 4, 16⟩, [3, 4, 6], [20, 20, 10], [1, 2, 2]⟩ h
  dsimp only at H
  rw [h2] at H
  exact ⟨H.1, H.2 (fun p _ => p)⟩

/-- C10: the transfer mutates only the price array — its `const` grids come
back unchanged — so when the orchestrator transfers the primary and then the
control array at the same event, both transfers observe the identical
`(newGrid, oldGrid)` pair. -/
theorem transfer_frame_and_shared_grids (log : ℚ → ℚ)
    (ev : List ℚ → List ℚ → ℚ → ℚ) (rebuildGrid : GridState → ℚ → List ℚ)
    (applyStepCondition : List ℚ → ℚ → List ℚ) (dividend date : ℚ)
    (s t : PricingState)
    (h : executeIntermediateStep log ev rebuildGrid applyStepCondition
      dividend date s = .ok t) :
    (∀ st r, movePricesInState log ev st = .ok r →
      r.newGrid = st.newGrid ∧ r.oldGrid = st.oldGrid) ∧
    ∃ p, movePricesInState log ev
        ⟨s.prices,
          rebuildGrid (executeIntermediateStepBounds s.gridState dividend)
            date,
          s.grid.map (fun g => g + dividend)⟩ =
        .ok ⟨p,
          rebuildGrid (executeIntermediateStepBounds s.gridState dividend)
            date,
          s.grid.map (fun g => g + dividend)⟩ ∧
      movePricesInState log ev
        ⟨s.controlPrices,
          rebuildGrid (executeIntermediateStepBounds s.gridState dividend)
            date,
          s.grid.map (fun g => g + dividend)⟩ =
        .ok ⟨t.controlPrices,
          rebuildGrid (executeIntermediateStepBounds s.gridState dividend)
            date,
          s.grid.map (fun g => g + dividend)⟩ ∧
      t.grid =
        rebuildGrid (executeIntermediateStepBounds s.gridState dividend)
          date := by
  constructor
  · intro st r hr
    simp only [movePricesInState] at hr
    cases hmv : movePricesBeforeExDiv log ev st.prices st.newGrid
        st.oldGrid with
    | error e =>
      rw [hmv] at hr
      exact Except.noConfusion hr
    | ok p =>
      rw [hmv] at hr
      injection hr with hr
      rw [← hr]
      exact ⟨rfl, rfl⟩
  · simp only [executeIntermediateStep] at h
    cases hmp : movePricesBeforeExDiv log ev s.prices
        (rebuildGrid (executeIntermediateStepBounds s.gridState dividend)
          date)
        (s.grid.map (fun g => g + dividend)) with
    | error e =>
      rw [hmp] at h
      exact Except.noConfusion h
    | ok p =>
      rw [hmp] at h
      cases hmc : movePricesBeforeExDiv log ev s.controlPrices
          (rebuildGrid (executeIntermediateStepBounds s.gridState dividend)
            date)
          (s.grid.map (fun g => g + dividend)) with
      | error e =>
        rw [hmc] at h
        exact Except.noConfusion h
      | ok c =>
        rw [hmc] at h
        injection h with h
        subst h
        refine ⟨p, ?_, ?_, ?_⟩
        · simp only [movePricesInState]
          rw [hmp]
        · simp only [movePricesInState]
          rw [hmc]
        · rfl

/-- C10 witness: a concrete event (dividend `1`, grid `[1,2,4]`): both the
primary and the control transfer observe the pair
`(newGrid, oldGrid) = ([2,3,5], [2,3,5])` and return the grids unchanged. -/
theorem transfer_frame_and_shared_grids_witness :
    (([2, 3, 5] : List ℚ) = [2, 3, 5] ∧ ([2, 3, 5] : List ℚ) = [2, 3, 5]) ∧
    ∃ p, movePricesInState id tableLookup
        ⟨[7, 8, 9], [2, 3, 5], [2, 3, 5]⟩ =
        .ok ⟨p, [2, 3, 5], [2, 3, 5]⟩ ∧
      movePricesInState id tableLookup
        ⟨[4, 5, 6], [2, 3, 5], [2, 3, 5]⟩ =
        .ok ⟨[4, 5, 5], [2, 3, 5], [2, 3, 5]⟩ ∧
      ([2, 3, 5] : List ℚ) = [2, 3, 5] := by
  have h1 : executeIntermediateStepBounds ⟨10, 3, 40⟩ 1 =
      ⟨11, 4, 121/4⟩ := by
    norm_num [executeIntermediateStepBounds, setGridLimits]
  have h2 : List.map (fun g => g + (1 : ℚ)) [1, 2, 4] = [2, 3, 5] := by
    norm_num
  have h : executeIntermediateStep id tableLookup (fun _ _ => [2, 3, 5])
      (fun p _ => p) 1 0 ⟨⟨10, 3, 40⟩, [1, 2, 4], [7, 8, 9], [4, 5, 6]⟩ =
      .ok ⟨⟨11, 4, 121/4⟩, [2, 3, 5], [7, 8, 8], [4, 5, 5]⟩ := by
    simp only [executeIntermediateStep]
    rw [h1, h2]
    rfl
  have H := transfer_frame_and_shared_grids id tableLookup
    (fun _ _ => [2, 3, 5]) (fun p _ => p) 1 0
    ⟨⟨10, 3, 40⟩, [1, 2, 4], [7, 8, 9], [4, 5, 6]⟩
    ⟨⟨11, 4, 121/4⟩, [2, 3, 5], [7, 8, 8], [4, 5, 5]⟩ h
  dsimp only at H
  rw [h2] at H
  exact ⟨H.1 ⟨[7, 8, 9], [2, 3, 5], [2, 3, 5]⟩
    ⟨[7, 8, 8], [2, 3, 5], [2, 3, 5]⟩ (by rfl), H.2⟩

/-- C7: construction fails with `ConfigurationError` iff the dividend count
differs from the step-date count or the cumulative dividend sum reaches the
underlying; `underlying = 100`, `dividends = [150]` fails, and
`underlying = 100`, `dividends = [5]` with one matching date succeeds. -/
theorem construction_validation_iff :
    (∀ (underlying : ℚ) (dividends exdivdates : List ℚ),
      (∃ e, dividendOptionConstruct underlying dividends exdivdates =
        .error e) ↔
      (exdivdates.length ≠ dividends.length ∨
        addElements dividends ≥ underlying)) ∧
    dividendOptionConstruct 100 [150] [1/2] =
      .error (.dividendsExceedUnderlying 150 100) ∧
    dividendOptionConstruct 100 [5] [1/2] = .ok 95 := by
  refine ⟨?_, by norm_num [dividendOptionConstruct, addElements],
    by norm_num [dividendOptionConstruct, addElements]⟩
  intro underlying dividends exdivdates
  constructor
  · rintro ⟨e, he⟩
    simp only [dividendOptionConstruct] at he
    split_ifs at he with h1 h2
    · exact Or.inr (not_lt.mp h2)
    · exact Or.inl h1
  · intro h
    simp only [dividendOptionConstruct]
    split_ifs with h1 h2
    · rcases h with h | h
      · exact absurd h1 h
      · exact absurd h (not_le.mpr h2)
    · exact ⟨_, rfl⟩
    · exact ⟨_, rfl⟩

end QLDiv
